import Mathlib

/-!
Verification of the battleship match-screen core: snapshot/event
reconciliation, turn gating, attack submission, placement validation,
board-matrix construction, identity resolution and the initial-fetch
retry loop, embedded shallowly from the React Native source.

Conventions of the embedding:
* JS numbers that the code only ever uses as integers are `Int`
  (grid coordinates, player slots); loop counters are `Nat`.
* `null`/`undefined` become `Option`; the JS `??` chain becomes
  `Option.orElse`; JS string truthiness (`''` is falsy) is checked
  explicitly where the source relies on it.
* Inbound payload cell lists are modelled after `normalizeCells` has
  shaped them into `{row, col, sunk}` records; the raw-JSON parsing
  performed by `normalizeCells` is not needed by any property below.
* Network calls become an explicit `Except`/oracle argument; React
  state setters become functional record updates on `GameState`.
-/

namespace BattleShip

/-- A recorded attack cell (`AttackCell` in the source); an absent
`sunk` field in JS is `false` here. -/
structure AttackCell where
  row : Int
  col : Int
  sunk : Bool
deriving DecidableEq, Repr

/-- A bare grid coordinate, used for pending attacks and placements. -/
structure GridCell where
  row : Int
  col : Int
deriving DecidableEq, Repr

/-- cell membership keyed by coordinates only, the comparison used by
`mergeCells` and all already-attacked checks in the source. -/
def memCell (c : AttackCell) (l : List AttackCell) : Bool :=
  l.any (fun e => e.row == c.row && e.col == c.col)

/-- `mergeCells` from the source: copy `base`, then push each addition
whose coordinates are not already present. -/
def mergeCells (base additions : List AttackCell) : List AttackCell :=
  additions.foldl
    (fun next cell => if memCell cell next then next else next ++ [cell])
    base

/-- one attacker's accumulated hit/miss history
(`selfAttackHistory` / `opponentAttackHistory` in the source). -/
structure AttackHistory where
  hits : List AttackCell
  misses : List AttackCell
deriving DecidableEq, Repr

/-- merging never removes a cell that was already present. -/
theorem memCell_mergeCells_of_memCell (c : AttackCell) (base adds : List AttackCell)
    (h : memCell c base = true) : memCell c (mergeCells base adds) = true := by
  induction adds generalizing base with
  | nil => exact h
  | cons a rest ih =>
      simp only [mergeCells, List.foldl_cons]
      by_cases hmem : memCell a base = true
      · simpa [mergeCells, hmem] using ih base h
      · have hb : memCell c (base ++ [a]) = true := by
          simp only [memCell, List.any_append, Bool.or_eq_true]
          exact Or.inl h
        simpa [mergeCells, hmem] using ih (base ++ [a]) hb

/-- every addition ends up present (by coordinates) after merging. -/
theorem memCell_mergeCells_of_mem (c : AttackCell) (base adds : List AttackCell)
    (h : c ∈ adds) : memCell c (mergeCells base adds) = true := by
  induction adds generalizing base with
  | nil => cases h
  | cons a rest ih =>
      simp only [mergeCells, List.foldl_cons]
      rcases List.mem_cons.mp h with rfl | hrest
      · by_cases hmem : memCell c base = true
        · simpa [mergeCells, hmem] using
            memCell_mergeCells_of_memCell c base rest hmem
        · have hb : memCell c (base ++ [c]) = true := by
            simp [memCell]
          simpa [mergeCells, hmem] using
            memCell_mergeCells_of_memCell c (base ++ [c]) rest hb
      · by_cases hmem : memCell a base = true
        · simpa [mergeCells, hmem] using ih base hrest
        · simpa [mergeCells, hmem] using ih (base ++ [a]) hrest

/-- merging additions that are all already present (by coordinates)
is the identity. -/
theorem mergeCells_eq_of_all_mem (base adds : List AttackCell)
    (h : ∀ c ∈ adds, memCell c base = true) : mergeCells base adds = base := by
  induction adds with
  | nil => rfl
  | cons a rest ih =>
      have ha : memCell a base = true := h a (List.mem_cons_self a rest)
      simp only [mergeCells, List.foldl_cons, ha, if_pos]
      exact ih (fun c hc => h c (List.mem_cons_of_mem a hc))

/-- does `pre` start `l`?  (character-list helper standing in for the
JS string primitives, written so the kernel can evaluate it). -/
def startsWithChars : List Char → List Char → Bool
  | [], _ => true
  | _ :: _, [] => false
  | a :: as, b :: bs => a == b && startsWithChars as bs

/-- does `sub` occur anywhere in the list? -/
def hasSubstrChars (sub : List Char) : List Char → Bool
  | [] => sub.isEmpty
  | c :: rest => startsWithChars sub (c :: rest) || hasSubstrChars sub rest

/-- JS `String.prototype.includes`. -/
def strContains (s sub : String) : Bool := hasSubstrChars sub.data s.data

/-- JS `String.prototype.toLowerCase` (ASCII, which is all the source
compares). -/
def strLower (s : String) : String := ⟨s.data.map Char.toLower⟩

/-- JS `String.prototype.trim`: whitespace stripped from both ends. -/
def strTrim (s : String) : String :=
  ⟨((s.data.dropWhile Char.isWhitespace).reverse.dropWhile
      Char.isWhitespace).reverse⟩

/-- a turn indicator as delivered by the backend: a 1/2 slot number or
an identity string (`payload.currentTurn` and friends). -/
inductive TurnV where
  | num (n : Int)
  | str (s : String)
deriving DecidableEq, Repr

/-- `payload.status`, which the source accepts as a string or a number
(a number is stringified with `String(...)`). -/
inductive StatusV where
  | str (s : String)
  | num (n : Int)
deriving DecidableEq, Repr

/-- per-player slot data inside a `game_status` payload, with cell
lists already shaped by `normalizeCells`. -/
structure PlayerData where
  uuid : Option String
  name : Option String
  boardSubmitted : Bool
  hits : List AttackCell
  misses : List AttackCell
  sunk : List AttackCell
deriving DecidableEq, Repr

/-- one element of `payload.events`. -/
structure GameEvent where
  typ : Option String
  player : Option Int
  x : Option Int
  y : Option Int
  result : Option String
  sunk : Bool
  hitCode : Bool
deriving DecidableEq, Repr

/-- an inbound snapshot/event payload, restricted to the fields
`applyGameStateUpdate` reads for the state it mutates. -/
structure Payload where
  typ : Option String
  status : Option StatusV
  currentTurn : Option TurnV
  turn : Option TurnV
  nextTurn : Option TurnV
  players1 : Option PlayerData
  players2 : Option PlayerData
  winner : Option TurnV
  loser : Option TurnV
  events : List GameEvent
deriving DecidableEq, Repr

/-- `PlayerCombatSnapshot` from the source. -/
structure PlayerCombatSnapshot where
  uuid : Option String
  name : Option String
  boardSubmitted : Bool
  hits : List AttackCell
  misses : List AttackCell
  sunk : List AttackCell
deriving DecidableEq, Repr

/-- `mapSnapshot` from `applyGameStateUpdate`; a missing slot entry
(`players['1']` absent) maps every field to its empty default.  A
name survives only if it is a string with non-empty trim. -/
def mapSnapshot (data : Option PlayerData) : PlayerCombatSnapshot :=
  match data with
  | none => ⟨none, none, false, [], [], []⟩
  | some d =>
      ⟨d.uuid,
       match d.name with
       | some n => if strTrim n = "" then none else some (strTrim n)
       | none => none,
       d.boardSubmitted, d.hits, d.misses, d.sunk⟩

/-- `toCell` from the event-merging block: only `attack` events with
both coordinates present produce a cell; the cell is flagged sunk when
the result is a hit carrying `sunk` or a truthy `hitCode`. -/
def toCell (e : GameEvent) : Option AttackCell :=
  if e.typ ≠ some "attack" then none
  else
    match e.x, e.y with
    | some x, some y =>
        let sunkFlag := e.result == some "hit" && (e.sunk || e.hitCode)
        some (if sunkFlag then ⟨y, x, true⟩ else ⟨y, x, false⟩)
    | _, _ => none

/-- the `newHits` gathered by the per-attacker pass over
`payload.events`: events attributed to `idx`, converted by `toCell`,
whose result is `hit`, in arrival order (the source pushes hits and
misses in one `forEach`; collecting each outcome in its own pass
yields the same two lists). -/
def collectHits (events : List GameEvent) (idx : Int) : List AttackCell :=
  events.filterMap (fun e =>
    if e.player ≠ some idx then none
    else
      match toCell e with
      | none => none
      | some c => if e.result == some "hit" then some c else none)

/-- the `newMisses` gathered by the same pass. -/
def collectMisses (events : List GameEvent) (idx : Int) : List AttackCell :=
  events.filterMap (fun e =>
    if e.player ≠ some idx then none
    else
      match toCell e with
      | none => none
      | some c => if e.result == some "miss" then some c else none)

/-- the `setSelfAttackHistory` / `setOpponentAttackHistory` updater:
collect the batch's new cells for the attacker and union them into
the held history with `mergeCells`; a batch contributing nothing
returns the previous history object unchanged. -/
def applyEvents (hist : AttackHistory) (events : List GameEvent) (idx : Int) :
    AttackHistory :=
  let newHits := collectHits events idx
  let newMisses := collectMisses events idx
  if newHits.isEmpty && newMisses.isEmpty then hist
  else ⟨mergeCells hist.hits newHits, mergeCells hist.misses newMisses⟩

/-- the session state held by the match screen: each field is one of
the reactive variables the reconciler and the attack controller read
or write.  Label/message fields that feed only the rendered text
(`currentTurnLabel`, `statusMessage`, `gamePhaseLabel`,
`playerSelfName`, `opponentDisplayName`) are not tracked. -/
structure GameState where
  displayGameId : String
  opponentUuid : String
  playerIndex : Option Int
  selfToken : Option String
  selfUserId : Option String
  playerOneLabel : String
  playerTwoLabel : String
  playerOneUuid : Option String
  playerTwoUuid : Option String
  selfCombatSnapshot : Option PlayerCombatSnapshot
  opponentCombatSnapshot : Option PlayerCombatSnapshot
  isCurrentTurnSelf : Bool
  selfAttackHistory : AttackHistory
  opponentAttackHistory : AttackHistory
  hasBothBoardsSubmitted : Bool
  isConfirmed : Bool
  pendingAttack : Option GridCell
  isSubmittingAttack : Bool
  attackFeedback : Option String
  gameResult : Option (Option String × Option String)
deriving DecidableEq, Repr

/-- JS truthiness test for an optional string compared against `t`:
`u && t === u`. -/
def optTruthyEq (u : Option String) (t : String) : Bool :=
  match u with
  | some x => x ≠ "" && t == x
  | none => false

/-- `statusValue`: a string status verbatim, a numeric one through
`String(...)`. -/
def statusValueOf (p : Payload) : Option String :=
  match p.status with
  | some (.str s) => some s
  | some (.num n) => some (toString n)
  | none => none

/-- `payload.currentTurn ?? payload.turn ?? payload.nextTurn`. -/
def candidateTurnOf (p : Payload) : Option TurnV :=
  (p.currentTurn.orElse fun _ => p.turn.orElse fun _ => p.nextTurn)

/-- `gameEnded`: the lowercased status mentions `ended`, or the
payload type is `game_ended`. -/
def gameEndedOf (p : Payload) : Bool :=
  (match statusValueOf p with
   | some sv => strContains (strLower sv) "ended"
   | none => false) || p.typ == some "game_ended"

/-- `labelForValue` from `applyGameStateUpdate`, resolving a winner or
loser marker to a display label using the freshly computed labels and
uuids. -/
def labelForValue (p1l p2l : String) (p1u p2u : Option String)
    (v : Option TurnV) : Option String :=
  match v with
  | none => none
  | some (.num n) =>
      if n = 1 then some p1l
      else if n = 2 then some p2l
      else some ("Player " ++ toString n)
  | some (.str t) =>
      if t = "1" then some p1l
      else if t = "2" then some p2l
      else if optTruthyEq p1u t then some p1l
      else if optTruthyEq p2u t then some p2l
      else if strTrim t = "" then none else some (strTrim t)

/-- the snapshot a `game_status` payload carries for slot 1
(`null` for every other payload type). -/
def playerOneSnapshotOf (p : Payload) : Option PlayerCombatSnapshot :=
  if p.typ == some "game_status" then some (mapSnapshot p.players1) else none

/-- the snapshot a `game_status` payload carries for slot 2. -/
def playerTwoSnapshotOf (p : Payload) : Option PlayerCombatSnapshot :=
  if p.typ == some "game_status" then some (mapSnapshot p.players2) else none

/-- `snap?.name?.trim() || held || fallback`: the JS `||` chain used
for the next player labels (an empty trim falls through). -/
def nextLabel (snap : Option PlayerCombatSnapshot) (held fallback : String) :
    String :=
  match snap with
  | some sn =>
      match sn.name with
      | some n => if strTrim n = "" then (if held = "" then fallback else held)
                  else strTrim n
      | none => if held = "" then fallback else held
  | none => if held = "" then fallback else held

/-- `snap?.uuid ?? held`. -/
def nextUuid (snap : Option PlayerCombatSnapshot) (held : Option String) :
    Option String :=
  ((snap.bind (·.uuid)).orElse fun _ => held)

/-- `getIndexForUuid` from `applyGameStateUpdate`: match a (truthy)
uuid against this payload's slot snapshots. -/
def getIndexForUuid (p1snap p2snap : Option PlayerCombatSnapshot)
    (uuid : Option String) : Option Int :=
  match uuid with
  | none => none
  | some u =>
      if u = "" then none
      else if (p1snap.bind (·.uuid)).elim false (fun pu => pu ≠ "" && pu == u)
        then some 1
      else if (p2snap.bind (·.uuid)).elim false (fun pu => pu ≠ "" && pu == u)
        then some 2
      else none

/-- the self/enemy snapshot selection: by bound `playerIndex` first,
else — on a `game_status` payload with a truthy local subject id — by
comparing the slots' uuid fields. -/
def selectSnapshots (s : GameState) (p : Payload) :
    Option PlayerCombatSnapshot × Option PlayerCombatSnapshot :=
  let p1snap := playerOneSnapshotOf p
  let p2snap := playerTwoSnapshotOf p
  if s.playerIndex = some 1 then (p1snap, p2snap)
  else if s.playerIndex = some 2 then (p2snap, p1snap)
  else
    match s.selfUserId with
    | some uid =>
        if uid ≠ "" && p.typ == some "game_status" then
          if (p1snap.bind (·.uuid)) = some uid then (p1snap, p2snap)
          else if (p2snap.bind (·.uuid)) = some uid then (p2snap, p1snap)
          else (none, none)
        else (none, none)
    | none => (none, none)

/-- `resolvedSelfIndex`:
`playerIndex ?? getIndexForUuid(selfSnapshot?.uuid ?? selfUserId) ??
getIndexForUuid(selfUserId)`. -/
def resolvedSelfIndexOf (s : GameState) (p : Payload) : Option Int :=
  let p1snap := playerOneSnapshotOf p
  let p2snap := playerTwoSnapshotOf p
  let selfSnapshot := (selectSnapshots s p).1
  ((s.playerIndex.orElse fun _ =>
      getIndexForUuid p1snap p2snap
        ((selfSnapshot.bind (·.uuid)).orElse fun _ => s.selfUserId)).orElse
    fun _ => getIndexForUuid p1snap p2snap s.selfUserId)

/-- `resolvedOpponentIndex`: the complementary slot when self is
resolved, else a uuid lookup for the enemy snapshot or the routed
opponent uuid. -/
def resolvedOpponentIndexOf (s : GameState) (p : Payload) : Option Int :=
  let p1snap := playerOneSnapshotOf p
  let p2snap := playerTwoSnapshotOf p
  let enemySnapshot := (selectSnapshots s p).2
  match resolvedSelfIndexOf s p with
  | some i => if i = 1 then some 2 else if i = 2 then some 1 else none
  | none =>
      getIndexForUuid p1snap p2snap
        ((enemySnapshot.bind (·.uuid)).orElse fun _ => some s.opponentUuid)

/-- `isSelfTurnNow`: a defined turn and a resolved self slot, and the
turn value either is a string equal to one of the players' (truthy)
uuids — note: either of them — or strictly equals the resolved slot
number. -/
def isSelfTurnNowOf (s : GameState) (p : Payload) : Bool :=
  let p1u := nextUuid (playerOneSnapshotOf p) s.playerOneUuid
  let p2u := nextUuid (playerTwoSnapshotOf p) s.playerTwoUuid
  match candidateTurnOf p, resolvedSelfIndexOf s p with
  | some ct, some idx =>
      (match ct with
       | .str t => optTruthyEq p1u t || optTruthyEq p2u t
       | .num _ => false) ||
      (match ct with
       | .num n => n == idx
       | .str _ => false)
  | _, _ => false

/-- `applyGameStateUpdate` from the source, as a state transformer on
the fields tracked by `GameState`. -/
def applyGameStateUpdate (s : GameState) (p : Payload) : GameState :=
  let p1snap := playerOneSnapshotOf p
  let p2snap := playerTwoSnapshotOf p
  let nextP1Label := nextLabel p1snap s.playerOneLabel "Player 1"
  let nextP2Label := nextLabel p2snap s.playerTwoLabel "Player 2"
  let nextP1Uuid := nextUuid p1snap s.playerOneUuid
  let nextP2Uuid := nextUuid p2snap s.playerTwoUuid
  let isStatus := p.typ == some "game_status"
  let winnerLabel := labelForValue nextP1Label nextP2Label nextP1Uuid nextP2Uuid p.winner
  let loserLabel := labelForValue nextP1Label nextP2Label nextP1Uuid nextP2Uuid p.loser
  let gameEnded := gameEndedOf p
  let selfSnapshot := (selectSnapshots s p).1
  let enemySnapshot := (selectSnapshots s p).2
  let resolvedSelfIndex := resolvedSelfIndexOf s p
  let resolvedOpponentIndex := resolvedOpponentIndexOf s p
  let eventsApply := !p.events.isEmpty && resolvedSelfIndex.isSome
  { s with
    playerOneLabel := if isStatus then nextP1Label else s.playerOneLabel
    playerTwoLabel := if isStatus then nextP2Label else s.playerTwoLabel
    playerOneUuid := if isStatus then nextP1Uuid else s.playerOneUuid
    playerTwoUuid := if isStatus then nextP2Uuid else s.playerTwoUuid
    selfCombatSnapshot :=
      match selfSnapshot with
      | some sn => some sn
      | none => s.selfCombatSnapshot
    isConfirmed :=
      match selfSnapshot with
      | some sn => if sn.boardSubmitted then true else s.isConfirmed
      | none => s.isConfirmed
    opponentCombatSnapshot :=
      match enemySnapshot with
      | some sn => some sn
      | none => s.opponentCombatSnapshot
    hasBothBoardsSubmitted :=
      match selfSnapshot, enemySnapshot with
      | some sn, some en => sn.boardSubmitted && en.boardSubmitted
      | _, _ => s.hasBothBoardsSubmitted
    isCurrentTurnSelf := isSelfTurnNowOf s p
    selfAttackHistory :=
      if eventsApply then
        match resolvedSelfIndex with
        | some idx => applyEvents s.selfAttackHistory p.events idx
        | none => s.selfAttackHistory
      else s.selfAttackHistory
    opponentAttackHistory :=
      if eventsApply then
        match resolvedOpponentIndex with
        | some idx => applyEvents s.opponentAttackHistory p.events idx
        | none => s.opponentAttackHistory
      else s.opponentAttackHistory
    gameResult := if gameEnded then some (winnerLabel, loserLabel) else none }

/-- `canFire` from the source: confirmed board, both boards
submitted, the turn flag marks self, and neither an in-flight
submission nor a pending attack. -/
def canFire (s : GameState) : Bool :=
  if !s.isConfirmed then false
  else if !s.hasBothBoardsSubmitted then false
  else if !s.isCurrentTurnSelf then false
  else if s.isSubmittingAttack || s.pendingAttack.isSome then false
  else true

/-- `isMyTurn`: the turn flag gated by a recorded game result. -/
def isMyTurn (s : GameState) : Bool :=
  if s.gameResult.isSome then false else s.isCurrentTurnSelf

/-- the `alreadyAttacked` test in `handleFireAt`. -/
def alreadyAttacked (s : GameState) (row col : Int) : Bool :=
  s.selfAttackHistory.hits.any (fun c => c.row == row && c.col == col) ||
  s.selfAttackHistory.misses.any (fun c => c.row == row && c.col == col)

/-- the `/fire` response body, restricted to the fields
`handleFireAt` reads. -/
structure FireResponse where
  result : Option String
  sunk : Bool
  hitCode : Bool
  message : Option String
  nextTurn : Option TurnV
deriving DecidableEq, Repr

/-- the feedback set after a successful request: a truthy response
message verbatim, else a fixed hit/miss toast, else nothing. -/
def fireFeedback (r : FireResponse) : Option String :=
  match r.message with
  | some m =>
      if m ≠ "" then some m
      else if r.result == some "hit" then some "Lovit!"
      else if r.result == some "miss" then some "Ratare."
      else none
  | none =>
      if r.result == some "hit" then some "Lovit!"
      else if r.result == some "miss" then some "Ratare."
      else none

/-- the turn flag after `handleFireAt` processes `response.nextTurn`.
For a numeric turn the source compares it with the bound
`playerIndex`; for a string turn the numeric branch is always
overwritten by the subsequent string branch, which compares against
the local subject id and the held player uuids. -/
def nextTurnSelfFlag (s : GameState) (nt : Option TurnV) : Bool :=
  match nt with
  | none => s.isCurrentTurnSelf
  | some (.num n) =>
      match s.playerIndex with
      | some pi => n == pi
      | none => s.isCurrentTurnSelf
  | some (.str t) =>
      if (match s.selfUserId with
          | some u => u ≠ "" && t == u
          | none => false) then true
      else if optTruthyEq s.playerOneUuid t then some 1 == s.playerIndex
      else if optTruthyEq s.playerTwoUuid t then some 2 == s.playerIndex
      else false

/-- `handleFireAt` from the source, with the network call's outcome
passed as an `Except`.  The returned flag records whether a network
request was issued.  The `finally` step clears `isSubmittingAttack`;
`pendingAttack` is set before the request and is not cleared here. -/
def handleFireAt (s : GameState) (row col : Int)
    (resp : Except String FireResponse) : GameState × Bool :=
  if !canFire s then (s, false)
  else if s.displayGameId = "" || s.displayGameId = "pending" then (s, false)
  else if alreadyAttacked s row col then
    ({ s with attackFeedback := some "Ai atacat deja acea celula." }, false)
  else
    let s1 := { s with isSubmittingAttack := true,
                       pendingAttack := some ⟨row, col⟩,
                       attackFeedback := none }
    match resp with
    | .error err =>
        let msg := if err = "" then "Could not fire attack." else err
        ({ s1 with attackFeedback := some msg, isSubmittingAttack := false },
         true)
    | .ok r =>
        let sunkFlag := r.result == some "hit" && (r.sunk || r.hitCode)
        let firedCell : AttackCell := ⟨row, col, sunkFlag⟩
        let hist := s.selfAttackHistory
        let hist2 :=
          if r.result == some "hit" then
            if hist.hits.any (fun c => c.row == row && c.col == col) then hist
            else ⟨hist.hits ++ [firedCell], hist.misses⟩
          else if r.result == some "miss" then
            if hist.misses.any (fun c => c.row == row && c.col == col) then hist
            else ⟨hist.hits, hist.misses ++ [firedCell]⟩
          else hist
        ({ s1 with attackFeedback := fireFeedback r,
                   selfAttackHistory := hist2,
                   isCurrentTurnSelf := nextTurnSelfFlag s r.nextTurn,
                   isSubmittingAttack := false },
         true)

/-- the watcher effect on `pendingAttack`: it clears the marker once
the attempted cell is recorded in the local sets or it is no longer
the local player's turn, and otherwise leaves it in place. -/
def pendingAttackCleanup (s : GameState) : GameState :=
  match s.pendingAttack with
  | none => s
  | some c =>
      let alreadyRecorded :=
        s.selfAttackHistory.hits.any
          (fun h => h.row == c.row && h.col == c.col) ||
        s.selfAttackHistory.misses.any
          (fun h => h.row == c.row && h.col == c.col)
      if alreadyRecorded || !isMyTurn s then { s with pendingAttack := none }
      else s

/-- JS falsiness for an optional string (`null`, `undefined` and the
empty string). -/
def optFalsy (o : Option String) : Bool :=
  match o with
  | none => true
  | some s => s = ""

/-- one candidate step of the identity-resolution scan: the exact
token comparison first, then — when a subject id is held — the
decoded subject comparison (`getUserIdFromToken` failures surface
here as `none` and are ignored). -/
def tokenMatchesSelf (selfTok selfUid : Option String)
    (decode : String → Option String) (candidate : String) : Bool :=
  (match selfTok with
   | some t => t ≠ "" && candidate == t
   | none => false) ||
  (match selfUid with
   | some u => u ≠ "" && decode candidate == some u
   | none => false)

/-- the `forEach` scan over the enumerated participant tokens: once an
index is found every later candidate is skipped. -/
def findSelfIndexAux (selfTok selfUid : Option String)
    (decode : String → Option String) : List (Nat × String) → Option Nat
  | [] => none
  | (idx, candidate) :: rest =>
      if tokenMatchesSelf selfTok selfUid decode candidate then some idx
      else findSelfIndexAux selfTok selfUid decode rest

/-- the identity-resolution effect: with a non-empty token list and at
least one truthy local credential, bind `playerIndex` to the found
position + 1; otherwise leave it unchanged. -/
def resolveSelfIndexFromTokens (matchTokens : List String)
    (selfTok selfUid : Option String) (decode : String → Option String)
    (playerIndex : Option Nat) : Option Nat :=
  if matchTokens.isEmpty then playerIndex
  else if optFalsy selfTok && optFalsy selfUid then playerIndex
  else
    match findSelfIndexAux selfTok selfUid decode matchTokens.enum with
    | some idx => some (idx + 1)
    | none => playerIndex

/-- Modelled from the spec (§4.1 wording, for comparison with the
source scan only): first the position of a token exactly equal to the
local token and, only failing any exact match in the whole list, the
position of the first token whose embedded subject identifier equals
the local subject identifier. -/
def findSelfIndexSpec (tokens : List String) (selfTok selfUid : Option String)
    (decode : String → Option String) : Option Nat :=
  match tokens.enum.find? (fun ic =>
      match selfTok with
      | some t => t ≠ "" && ic.2 == t
      | none => false) with
  | some ic => some (ic.1 + 1)
  | none =>
      (tokens.enum.find? (fun ic =>
          match selfUid with
          | some u => u ≠ "" && decode ic.2 == some u
          | none => false)).map (fun ic => ic.1 + 1)

/-- the fixed shape catalog (`shapes` in the source); offsets are
`(x, y)` pairs relative to the anchor. -/
structure ShipShape where
  id : String
  name : String
  cells : List (Int × Int)
deriving DecidableEq, Repr

/-- the five catalog entries, in source order. -/
def shapesCatalog : List ShipShape :=
  [⟨"s-3x1", "3x1", [(0, 0), (1, 0), (2, 0)]⟩,
   ⟨"s-2x1", "2x1", [(0, 0), (1, 0)]⟩,
   ⟨"s-2x2", "2x2", [(0, 0), (1, 0), (0, 1), (1, 1)]⟩,
   ⟨"s-4x1", "4x1", [(0, 0), (1, 0), (2, 0), (3, 0)]⟩,
   ⟨"s-u", "U", [(0, 0), (1, 0), (0, 1), (0, 2), (1, 2)]⟩]

/-- a shape instance committed to the left grid. -/
structure PlacedShape where
  id : String
  cells : List GridCell
deriving DecidableEq, Repr

/-- a shape's cells translated onto the grid from a drop anchor:
`{row: row0 + c.y, col: col0 + c.x}`. -/
def translateCells (shape : ShipShape) (row0 col0 : Int) : List GridCell :=
  shape.cells.map (fun c => ⟨row0 + c.2, col0 + c.1⟩)

/-- the 10×10 bounds check applied while dragging. -/
def cellInBounds (c : GridCell) : Bool :=
  0 ≤ c.row && c.row < 10 && 0 ≤ c.col && c.col < 10

/-- the overlap test against every committed shape. -/
def cellsOverlap (cells : List GridCell) (placed : List PlacedShape) : Bool :=
  cells.any (fun c =>
    placed.any (fun ps =>
      ps.cells.any (fun p => p.row == c.row && p.col == c.col)))

/-- `hoverPreview.valid`: in bounds and no overlap. -/
def previewValid (cells : List GridCell) (placed : List PlacedShape) : Bool :=
  cells.all cellInBounds && !cellsOverlap cells placed

/-- the placement-relevant reactive state: the committed shapes and
the id set backing the palette (`usedShapeIds`, a JS `Set` kept here
as an insertion-ordered duplicate-free list). -/
structure PlacementState where
  placedShapesLeft : List PlacedShape
  usedShapeIds : List String
deriving DecidableEq, Repr

/-- the screen mounts with nothing placed. -/
def initialPlacement : PlacementState := ⟨[], []⟩

/-- JS `Set.add` on the list encoding. -/
def setAdd (l : List String) (x : String) : List String :=
  if x ∈ l then l else l ++ [x]

/-- JS `Set.delete` on the list encoding. -/
def setDelete (l : List String) (x : String) : List String :=
  l.filter (fun y => y ≠ x)

/-- the drag gestures that can change the committed placement:
dropping a palette shape at an anchor, re-dropping an already placed
shape at a new anchor, and returning a placed shape to the palette
(drop on the palette, or a drag that loses its coordinates). -/
inductive PlacementOp where
  | dropFromPalette (shapeId : String) (row0 col0 : Int)
  | moveOnGrid (shapeId : String) (row0 col0 : Int)
  | removeToPalette (shapeId : String)
deriving DecidableEq, Repr

/-- one gesture against the placement state, following `startDrag` /
`moveDrag` / `endDrag`: a palette drop commits only an unused catalog
shape whose translated cells pass `previewValid`; a grid move
re-validates against every committed shape (the lifted shape's old
cells included) and replaces that shape's cells on success; an
invalid drop leaves the state unchanged. -/
def placementStep (st : PlacementState) (op : PlacementOp) : PlacementState :=
  match op with
  | .dropFromPalette sid r c =>
      match shapesCatalog.find? (fun s => s.id == sid) with
      | none => st
      | some shape =>
          if sid ∈ st.usedShapeIds then st
          else
            let cells := translateCells shape r c
            if previewValid cells st.placedShapesLeft then
              ⟨st.placedShapesLeft ++ [⟨sid, cells⟩], setAdd st.usedShapeIds sid⟩
            else st
  | .moveOnGrid sid r c =>
      match st.placedShapesLeft.find? (fun ps => ps.id == sid),
            shapesCatalog.find? (fun s => s.id == sid) with
      | some _, some shape =>
          let cells := translateCells shape r c
          if previewValid cells st.placedShapesLeft then
            ⟨st.placedShapesLeft.map
               (fun ps => if ps.id == sid then ⟨ps.id, cells⟩ else ps),
             st.usedShapeIds⟩
          else st
      | _, _ => st
  | .removeToPalette sid =>
      ⟨st.placedShapesLeft.filter (fun ps => ps.id ≠ sid),
       setDelete st.usedShapeIds sid⟩

/-- a whole drag session from the empty board. -/
def runPlacement (ops : List PlacementOp) : PlacementState :=
  ops.foldl placementStep initialPlacement

/-- the shape-id lookup backing `shapesById`. -/
def shapeById (sid : String) : Option ShipShape :=
  shapesCatalog.find? (fun s => s.id == sid)

/-- the label written for a placed shape: the catalog name when the id
resolves, else the raw id (`definition?.name ?? shape.id`). -/
def shapeLabel (ps : PlacedShape) : String :=
  ((shapeById ps.id).map (·.name)).getD ps.id

/-- the 10×10 all-`null` matrix `buildBoardMatrix` starts from. -/
def emptyBoard : List (List (Option String)) :=
  List.replicate 10 (List.replicate 10 none)

/-- one cell write of `buildBoardMatrix`: rows or columns outside
0..9 are skipped. -/
def writeBoardCell (board : List (List (Option String))) (cell : GridCell)
    (label : String) : List (List (Option String)) :=
  if cellInBounds cell then
    board.set cell.row.toNat
      ((board.getD cell.row.toNat []).set cell.col.toNat (some label))
  else board

/-- `buildBoardMatrix` from the source. -/
def buildBoardMatrix (placed : List PlacedShape) : List (List (Option String)) :=
  placed.foldl
    (fun board ps =>
      ps.cells.foldl (fun b cell => writeBoardCell b cell (shapeLabel ps)) board)
    emptyBoard

/-- `maxAttempts` of the initial-fetch loop. -/
def maxAttempts : Nat := 8

/-- one backoff step:
`Math.min(1500, Math.round(200 * Math.pow(1.5, attempt)))`; in the
range the loop can reach, `200 * 1.5^attempt` is an exact dyadic
rational, so `Math.round` is floor of the value plus one half. -/
def backoffDelay (attempt : Nat) : Nat :=
  min 1500 (Int.toNat ⌊(200 : ℚ) * (3 / 2 : ℚ) ^ attempt + 1 / 2⌋)

/-- the `for` loop of `fetchStateWithRetry` over the remaining attempt
indices: stop at the first success, give up (with no delay) after the
final attempt, otherwise sleep the backoff and continue.  Returns the
slept delays in order and the index of the successful attempt when
one succeeded. -/
def runAttempts (ok : Nat → Bool) : List Nat → List Nat × Option Nat
  | [] => ([], none)
  | a :: rest =>
      if ok a then ([], some a)
      else if rest.isEmpty then ([], none)
      else
        let r := runAttempts ok rest
        (backoffDelay a :: r.1, r.2)

/-- `fetchStateWithRetry`: the bounded loop over attempts
`0 .. maxAttempts - 1`, with the oracle `ok` standing for whether the
snapshot request of a given attempt succeeds. -/
def fetchStateWithRetry (ok : Nat → Bool) : List Nat × Option Nat :=
  runAttempts ok (List.range maxAttempts)

/-! Shared lemmas and concrete session fixtures used by several
properties. -/

/-- `canFire` as one conjunction of its five gating conditions. -/
theorem canFire_eq_conj (s : GameState) :
    canFire s = (s.isConfirmed && s.hasBothBoardsSubmitted &&
      s.isCurrentTurnSelf && !s.isSubmittingAttack && !s.pendingAttack.isSome) := by
  simp only [canFire]
  by_cases h1 : s.isConfirmed <;> by_cases h2 : s.hasBothBoardsSubmitted <;>
    by_cases h3 : s.isCurrentTurnSelf <;> by_cases h4 : s.isSubmittingAttack <;>
    by_cases h5 : s.pendingAttack.isSome <;> simp [h1, h2, h3, h4, h5]

/-- a mid-match session: self is slot one, both boards submitted, the
turn flag marks self, nothing pending, cell (1,1) recorded as a hit
in the local history and in the held snapshot view. -/
def exSessionState : GameState :=
  { displayGameId := "g1", opponentUuid := "", playerIndex := some 1
    selfToken := some "tokA", selfUserId := some "uuid-a"
    playerOneLabel := "Player 1", playerTwoLabel := "Player 2"
    playerOneUuid := some "uuid-a", playerTwoUuid := some "uuid-b"
    selfCombatSnapshot := some ⟨some "uuid-a", some "A", true, [⟨1, 1, false⟩], [], []⟩
    opponentCombatSnapshot := none
    isCurrentTurnSelf := true
    selfAttackHistory := ⟨[⟨1, 1, false⟩], []⟩
    opponentAttackHistory := ⟨[], []⟩
    hasBothBoardsSubmitted := true, isConfirmed := true
    pendingAttack := none, isSubmittingAttack := false
    attackFeedback := none, gameResult := none }

/-- a `game_status` snapshot payload: both boards submitted, turn is
slot one, and the slot-one hit list carries only the cell (2,2). -/
def exStatusPayload : Payload :=
  { typ := some "game_status", status := some (.str "active")
    currentTurn := some (.num 1), turn := none, nextTurn := none
    players1 := some ⟨some "uuid-a", some "A", true, [⟨2, 2, false⟩], [], []⟩
    players2 := some ⟨some "uuid-b", some "B", true, [], [], []⟩
    winner := none, loser := none, events := [] }

/-- a `game_ended` payload that still carries a turn field naming
slot one. -/
def exEndedPayload : Payload :=
  { typ := some "game_ended", status := none
    currentTurn := some (.num 1), turn := none, nextTurn := none
    players1 := none, players2 := none
    winner := some (.num 2), loser := some (.num 1), events := [] }

/-- the session after an ended result was recorded (turn flag
lowered, as a turn-less ended payload leaves it). -/
def exEndedState : GameState :=
  { exSessionState with
      gameResult := some (some "Player 2", some "Player 1")
      isCurrentTurnSelf := false }

/-- C4, counterexample: a `game_ended` payload that carries
`turn = 1` leaves the session with a recorded game result and yet
`canFire = true`, because `canFire` never consults the ended result;
all the other conditions of the claimed predicate hold, the state is
not `Active`, and the claimed `can-act ↔ Active(selfIndex) ∧ …`
equivalence fails at this state. -/
theorem can_fire_true_after_ended :
    (applyGameStateUpdate exSessionState exEndedPayload).gameResult.isSome = true ∧
    (applyGameStateUpdate exSessionState exEndedPayload).hasBothBoardsSubmitted = true ∧
    (applyGameStateUpdate exSessionState exEndedPayload).pendingAttack = none ∧
    (applyGameStateUpdate exSessionState exEndedPayload).isSubmittingAttack = false ∧
    (applyGameStateUpdate exSessionState exEndedPayload).isCurrentTurnSelf = true ∧
    canFire (applyGameStateUpdate exSessionState exEndedPayload) = true := by
  decide

/-- C4, amended: `canFire` is the conjunction of the confirmed-board
flag, the both-boards-submitted flag, the turn-is-self flag, no
in-flight submission and no pending attack — the ended result is not
consulted; only the separate `isMyTurn` projection is gated by the
recorded game result. -/
theorem can_fire_characterization :
    (∀ s : GameState,
        canFire s = (s.isConfirmed && s.hasBothBoardsSubmitted &&
          s.isCurrentTurnSelf && !s.isSubmittingAttack &&
          !s.pendingAttack.isSome)) ∧
    (∀ s : GameState,
        isMyTurn s = (!s.gameResult.isSome && s.isCurrentTurnSelf)) := by
  refine ⟨canFire_eq_conj, fun s => ?_⟩
  simp only [isMyTurn]
  by_cases h : s.gameResult.isSome <;> simp [h]

/-- C5, counterexample: from a session holding an ended result, one
ordinary `game_status` payload clears the result, raises the
turn-is-self flag again and makes `canFire` true — the ended state is
not terminal. -/
theorem ended_state_not_terminal :
    exEndedState.gameResult.isSome = true ∧
    canFire exEndedState = false ∧
    (applyGameStateUpdate exEndedState exStatusPayload).gameResult = none ∧
    (applyGameStateUpdate exEndedState exStatusPayload).isCurrentTurnSelf = true ∧
    canFire (applyGameStateUpdate exEndedState exStatusPayload) = true := by
  decide

/-- C5, amended: the ended result is recomputed from scratch on every
arrival — after any update it is present exactly when that payload
itself carries an ended marker (an `ended` status or a `game_ended`
type), independent of the previous state; so a later non-ended
payload clears it and turn/gating resume from that payload. -/
theorem game_result_recomputed_per_payload (s : GameState) (p : Payload) :
    (applyGameStateUpdate s p).gameResult.isSome = gameEndedOf p := by
  simp only [applyGameStateUpdate]
  by_cases h : gameEndedOf p = true <;> simp [h]

/-- C5 witness: the amended rule evaluated at the fixtures — the
ended payload sets the result, the status payload after it clears it. -/
theorem game_result_recomputed_per_payload_witness :
    (applyGameStateUpdate exSessionState exEndedPayload).gameResult.isSome =
      gameEndedOf exEndedPayload ∧
    (applyGameStateUpdate exEndedState exStatusPayload).gameResult.isSome =
      gameEndedOf exStatusPayload :=
  ⟨game_result_recomputed_per_payload exSessionState exEndedPayload,
   game_result_recomputed_per_payload exEndedState exStatusPayload⟩

/-- unpacking membership in the collected hits. -/
theorem mem_collectHits {events : List GameEvent} {idx : Int} {c : AttackCell}
    (h : c ∈ collectHits events idx) :
    ∃ e ∈ events, e.player = some idx ∧ toCell e = some c ∧
      e.result = some "hit" := by
  rcases List.mem_filterMap.mp h with ⟨e, he, hf⟩
  refine ⟨e, he, ?_⟩
  by_cases hp : e.player = some idx
  · simp only [hp, ne_eq, not_true_eq_false, if_false] at hf
    match hc : toCell e with
    | none => rw [hc] at hf; cases hf
    | some c0 =>
        rw [hc] at hf
        by_cases hr : e.result = some "hit"
        · simp only [hr, beq_self_eq_true, if_pos] at hf
          exact ⟨hp, hf, hr⟩
        · simp [(by simpa using hr : ¬(e.result == some "hit") = true)] at hf
  · simp [hp] at hf

/-- unpacking membership in the collected misses. -/
theorem mem_collectMisses {events : List GameEvent} {idx : Int} {c : AttackCell}
    (h : c ∈ collectMisses events idx) :
    ∃ e ∈ events, e.player = some idx ∧ toCell e = some c ∧
      e.result = some "miss" := by
  rcases List.mem_filterMap.mp h with ⟨e, he, hf⟩
  refine ⟨e, he, ?_⟩
  by_cases hp : e.player = some idx
  · simp only [hp, ne_eq, not_true_eq_false, if_false] at hf
    match hc : toCell e with
    | none => rw [hc] at hf; cases hf
    | some c0 =>
        rw [hc] at hf
        by_cases hr : e.result = some "miss"
        · simp only [hr, beq_self_eq_true, if_pos] at hf
          exact ⟨hp, hf, hr⟩
        · simp [(by simpa using hr : ¬(e.result == some "miss") = true)] at hf
  · simp [hp] at hf

/-- the miss event at cell (1,1) used by the merge counterexample. -/
def exMissEvent : GameEvent :=
  ⟨some "attack", some 1, some 1, some 1, some "miss", false, false⟩

/-- C2, counterexample: the cell (1,1) is already present in the
attacker's hit set, yet a `miss` event for (1,1) is not a no-op — the
per-outcome merge only deduplicates against the set matching the
event's result, so the cell is added to the miss set as well. -/
theorem cross_outcome_event_not_noop :
    memCell ⟨1, 1, false⟩ (⟨[⟨1, 1, false⟩], []⟩ : AttackHistory).hits = true ∧
    applyEvents ⟨[⟨1, 1, false⟩], []⟩ [exMissEvent] 1 ≠
      (⟨[⟨1, 1, false⟩], []⟩ : AttackHistory) ∧
    (applyEvents ⟨[⟨1, 1, false⟩], []⟩ [exMissEvent] 1).misses =
      [⟨1, 1, false⟩] := by
  decide

/-- C2, amended: event merging is a union keyed by cell within each
outcome set — a batch whose every event targets a cell already
present in the set matching that event's outcome (hit events against
the hit set, miss events against the miss set) leaves the history
unchanged, and applying any batch twice gives the same history as
applying it once. -/
theorem event_merge_matching_noop_and_idempotent :
    (∀ (h : AttackHistory) (es : List GameEvent) (idx : Int),
        (∀ e ∈ es, e.player = some idx →
          ∀ c, toCell e = some c →
            (e.result = some "hit" → memCell c h.hits = true) ∧
            (e.result = some "miss" → memCell c h.misses = true)) →
        applyEvents h es idx = h) ∧
    (∀ (h : AttackHistory) (es : List GameEvent) (idx : Int),
        applyEvents (applyEvents h es idx) es idx = applyEvents h es idx) := by
  constructor
  · intro h es idx hall
    have hhits : mergeCells h.hits (collectHits es idx) = h.hits :=
      mergeCells_eq_of_all_mem _ _ (fun c hc => by
        rcases mem_collectHits hc with ⟨e, he, hp, htc, hr⟩
        exact ((hall e he hp c htc).1 hr))
    have hmiss : mergeCells h.misses (collectMisses es idx) = h.misses :=
      mergeCells_eq_of_all_mem _ _ (fun c hc => by
        rcases mem_collectMisses hc with ⟨e, he, hp, htc, hr⟩
        exact ((hall e he hp c htc).2 hr))
    by_cases hempty :
        ((collectHits es idx).isEmpty && (collectMisses es idx).isEmpty) = true
    · simp only [applyEvents]
      rw [if_pos hempty]
    · simp only [applyEvents]
      rw [if_neg hempty, hhits, hmiss]
  · intro h es idx
    by_cases hempty :
        ((collectHits es idx).isEmpty && (collectMisses es idx).isEmpty) = true
    · have e1 : applyEvents h es idx = h := by
        simp only [applyEvents]
        rw [if_pos hempty]
      rw [e1, e1]
    · have happ : ∀ h0 : AttackHistory, applyEvents h0 es idx =
          ⟨mergeCells h0.hits (collectHits es idx),
           mergeCells h0.misses (collectMisses es idx)⟩ := by
        intro h0
        simp only [applyEvents]
        rw [if_neg hempty]
      have hh2 : mergeCells (mergeCells h.hits (collectHits es idx))
          (collectHits es idx) = mergeCells h.hits (collectHits es idx) :=
        mergeCells_eq_of_all_mem _ _
          (fun c hc => memCell_mergeCells_of_mem c _ _ hc)
      have hm2 : mergeCells (mergeCells h.misses (collectMisses es idx))
          (collectMisses es idx) = mergeCells h.misses (collectMisses es idx) :=
        mergeCells_eq_of_all_mem _ _
          (fun c hc => memCell_mergeCells_of_mem c _ _ hc)
      rw [happ, happ]
      exact congrArg₂ AttackHistory.mk hh2 hm2

/-- C2 witness: the amended no-op and idempotence rules evaluated at a
concrete history and a concrete batch (one already-recorded hit event
and one fresh miss event). -/
theorem event_merge_matching_noop_witness :
    applyEvents ⟨[⟨1, 1, false⟩], []⟩
      [⟨some "attack", some 1, some 1, some 1, some "hit", false, false⟩] 1 =
      (⟨[⟨1, 1, false⟩], []⟩ : AttackHistory) ∧
    applyEvents (applyEvents ⟨[⟨1, 1, false⟩], []⟩ [exMissEvent] 1)
      [exMissEvent] 1 = applyEvents ⟨[⟨1, 1, false⟩], []⟩ [exMissEvent] 1 :=
  ⟨event_merge_matching_noop_and_idempotent.1 _ _ 1 (by decide),
   event_merge_matching_noop_and_idempotent.2 ⟨[⟨1, 1, false⟩], []⟩ [exMissEvent] 1⟩

/-- C1, counterexample: with the cell (1,1) held locally (in the
attack history and in the stored snapshot view) and an incoming
snapshot carrying only the hit (2,2), no held hit set becomes the
union {(1,1),(2,2)}: the snapshot view is replaced wholesale — (1,1)
is gone from it — and the snapshot's (2,2) is never unioned into the
locally held history. -/
theorem snapshot_union_claim_refuted :
    memCell ⟨1, 1, false⟩ exSessionState.selfAttackHistory.hits = true ∧
    memCell ⟨1, 1, false⟩
      (exSessionState.selfCombatSnapshot.elim [] (·.hits)) = true ∧
    ((applyGameStateUpdate exSessionState exStatusPayload).selfCombatSnapshot.elim
        [] (·.hits)) = [⟨2, 2, false⟩] ∧
    memCell ⟨1, 1, false⟩
      ((applyGameStateUpdate exSessionState exStatusPayload).selfCombatSnapshot.elim
        [] (·.hits)) = false ∧
    (applyGameStateUpdate exSessionState exStatusPayload).selfAttackHistory.hits =
      [⟨1, 1, false⟩] ∧
    memCell ⟨2, 2, false⟩
      (applyGameStateUpdate exSessionState exStatusPayload).selfAttackHistory.hits =
      false := by
  decide

/-- C1, amended: a snapshot replaces the stored per-player snapshot
combat view wholesale with exactly the snapshot's own cell sets and
leaves the locally held event-derived hit/miss histories untouched
(only event batches are unioned into those); with local history hits
{(1,1)} and snapshot hits {(2,2)}, the history stays {(1,1)} and the
snapshot view becomes exactly {(2,2)}. -/
theorem snapshot_replaces_view_histories_untouched :
    (∀ (s : GameState) (p : Payload), p.events = [] →
        (applyGameStateUpdate s p).selfAttackHistory = s.selfAttackHistory ∧
        (applyGameStateUpdate s p).opponentAttackHistory =
          s.opponentAttackHistory) ∧
    (∀ (s : GameState) (p : Payload),
        s.playerIndex = some 1 → p.typ = some "game_status" →
        (applyGameStateUpdate s p).selfCombatSnapshot =
          some (mapSnapshot p.players1) ∧
        (applyGameStateUpdate s p).opponentCombatSnapshot =
          some (mapSnapshot p.players2)) := by
  constructor
  · intro s p hev
    constructor <;> simp [applyGameStateUpdate, hev]
  · intro s p hpi htyp
    constructor <;>
      simp [applyGameStateUpdate, selectSnapshots, playerOneSnapshotOf,
        playerTwoSnapshotOf, hpi, htyp]

/-- C1 witness: the amended rule at the fixtures — the status payload
(an empty event list) leaves both histories alone and installs its
slot snapshots verbatim. -/
theorem snapshot_replaces_view_witness :
    ((applyGameStateUpdate exSessionState exStatusPayload).selfAttackHistory =
        exSessionState.selfAttackHistory ∧
      (applyGameStateUpdate exSessionState exStatusPayload).opponentAttackHistory =
        exSessionState.opponentAttackHistory) ∧
    ((applyGameStateUpdate exSessionState exStatusPayload).selfCombatSnapshot =
        some (mapSnapshot exStatusPayload.players1) ∧
      (applyGameStateUpdate exSessionState exStatusPayload).opponentCombatSnapshot =
        some (mapSnapshot exStatusPayload.players2)) :=
  ⟨snapshot_replaces_view_histories_untouched.1 exSessionState exStatusPayload rfl,
   snapshot_replaces_view_histories_untouched.2 exSessionState exStatusPayload
     rfl rfl⟩

/-- C3, counterexample: a failing fire request surfaces the error and
leaves the histories alone, but the cleanup step only clears the
in-flight flag — `pendingAttack` stays set (and the watcher effect
does not clear it either while it is still the local player's turn
and the cell is unrecorded), so the attempted cell is not available
for a retry. -/
theorem pending_attack_persists_after_failure :
    (handleFireAt exSessionState 3 4 (.error "Network error while firing")).2 =
      true ∧
    (handleFireAt exSessionState 3 4
        (.error "Network error while firing")).1.attackFeedback =
      some "Network error while firing" ∧
    (handleFireAt exSessionState 3 4
        (.error "Network error while firing")).1.selfAttackHistory =
      exSessionState.selfAttackHistory ∧
    (handleFireAt exSessionState 3 4
        (.error "Network error while firing")).1.isSubmittingAttack = false ∧
    (handleFireAt exSessionState 3 4
        (.error "Network error while firing")).1.pendingAttack =
      some ⟨3, 4⟩ ∧
    (pendingAttackCleanup
        (handleFireAt exSessionState 3 4
          (.error "Network error while firing")).1).pendingAttack =
      some ⟨3, 4⟩ := by
  decide

/-- C3, amended: on a failing request the error message is surfaced
and the hit/miss histories are untouched; the unconditional cleanup
step clears only the in-flight submission flag, while `pendingAttack`
keeps the attempted cell — it is cleared by a separate watcher only
once the cell is recorded or the turn flag stops marking self. -/
theorem fire_failure_surfaces_error_keeps_pending (s : GameState)
    (row col : Int) (err : String)
    (hcf : canFire s = true)
    (hg1 : ¬s.displayGameId = "")
    (hg2 : ¬s.displayGameId = "pending")
    (hna : alreadyAttacked s row col = false) :
    (handleFireAt s row col (.error err)).2 = true ∧
    (handleFireAt s row col (.error err)).1.attackFeedback =
      some (if err = "" then "Could not fire attack." else err) ∧
    (handleFireAt s row col (.error err)).1.selfAttackHistory =
      s.selfAttackHistory ∧
    (handleFireAt s row col (.error err)).1.opponentAttackHistory =
      s.opponentAttackHistory ∧
    (handleFireAt s row col (.error err)).1.isSubmittingAttack = false ∧
    (handleFireAt s row col (.error err)).1.pendingAttack = some ⟨row, col⟩ ∧
    (handleFireAt s row col (.error err)).1.isCurrentTurnSelf =
      s.isCurrentTurnSelf ∧
    (handleFireAt s row col (.error err)).1.gameResult = s.gameResult := by
  simp [handleFireAt, hcf, hg1, hg2, hna]

/-- C3 witness: the amended failure behaviour at the concrete session
fixture and the cell (5,6). -/
theorem fire_failure_surfaces_error_witness :
    (handleFireAt exSessionState 5 6 (.error "boom")).2 = true ∧
    (handleFireAt exSessionState 5 6 (.error "boom")).1.attackFeedback =
      some (if "boom" = "" then "Could not fire attack." else "boom") ∧
    (handleFireAt exSessionState 5 6 (.error "boom")).1.selfAttackHistory =
      exSessionState.selfAttackHistory ∧
    (handleFireAt exSessionState 5 6 (.error "boom")).1.opponentAttackHistory =
      exSessionState.opponentAttackHistory ∧
    (handleFireAt exSessionState 5 6 (.error "boom")).1.isSubmittingAttack =
      false ∧
    (handleFireAt exSessionState 5 6 (.error "boom")).1.pendingAttack =
      some ⟨5, 6⟩ ∧
    (handleFireAt exSessionState 5 6 (.error "boom")).1.isCurrentTurnSelf =
      exSessionState.isCurrentTurnSelf ∧
    (handleFireAt exSessionState 5 6 (.error "boom")).1.gameResult =
      exSessionState.gameResult :=
  fire_failure_surfaces_error_keeps_pending exSessionState 5 6 "boom"
    (by decide) (by decide) (by decide) (by decide)

/-- C6: while a pending attack exists or a submission is in flight, a
further `handleFireAt` call is rejected with no network request and
no state change at all; and a call targeting a cell already present
in the local hit or miss sets is rejected with no network request and
no change to either combat history or the pending marker. -/
theorem fire_rejected_without_network :
    (∀ (s : GameState) (row col : Int) (resp : Except String FireResponse),
        s.pendingAttack.isSome = true ∨ s.isSubmittingAttack = true →
        handleFireAt s row col resp = (s, false)) ∧
    (∀ (s : GameState) (row col : Int) (resp : Except String FireResponse),
        alreadyAttacked s row col = true →
        (handleFireAt s row col resp).2 = false ∧
        (handleFireAt s row col resp).1.selfAttackHistory =
          s.selfAttackHistory ∧
        (handleFireAt s row col resp).1.opponentAttackHistory =
          s.opponentAttackHistory ∧
        (handleFireAt s row col resp).1.pendingAttack = s.pendingAttack ∧
        (handleFireAt s row col resp).1.isSubmittingAttack =
          s.isSubmittingAttack) := by
  constructor
  · intro s row col resp h
    have hcf : canFire s = false := by
      rw [canFire_eq_conj]
      rcases h with h | h <;> simp [h]
    simp [handleFireAt, hcf]
  · intro s row col resp halready
    by_cases hcf : canFire s = true
    · by_cases hgid : s.displayGameId = "" ∨ s.displayGameId = "pending"
      · simp [handleFireAt, hcf, hgid]
      · push_neg at hgid
        simp [handleFireAt, hcf, hgid.1, hgid.2, halready]
    · have hcf0 : canFire s = false := by
        simpa using hcf
      simp [handleFireAt, hcf0]

/-- C6 witness: both rejection rules at concrete sessions — one with
a pending attack at (3,4), one targeting the already-hit cell
(1,1). -/
theorem fire_rejected_without_network_witness :
    handleFireAt { exSessionState with pendingAttack := some ⟨3, 4⟩ } 0 0
      (.error "x") =
      ({ exSessionState with pendingAttack := some ⟨3, 4⟩ }, false) ∧
    ((handleFireAt exSessionState 1 1 (.error "x")).2 = false ∧
      (handleFireAt exSessionState 1 1 (.error "x")).1.selfAttackHistory =
        exSessionState.selfAttackHistory ∧
      (handleFireAt exSessionState 1 1 (.error "x")).1.opponentAttackHistory =
        exSessionState.opponentAttackHistory ∧
      (handleFireAt exSessionState 1 1 (.error "x")).1.pendingAttack =
        exSessionState.pendingAttack ∧
      (handleFireAt exSessionState 1 1 (.error "x")).1.isSubmittingAttack =
        exSessionState.isSubmittingAttack) :=
  ⟨fire_rejected_without_network.1 _ 0 0 (.error "x") (Or.inl (by decide)),
   fire_rejected_without_network.2 exSessionState 1 1 (.error "x") (by decide)⟩

/-- a token decoder for the identity counterexample: only the token
"A" decodes, to the subject id "u". -/
def exDecode : String → Option String :=
  fun t => if t = "A" then some "u" else none

/-- C9, counterexample: local token "B", local subject id "u", token
list ["A", "B"] where "A" embeds "u".  The exact match sits at
position 1 (selfIndex 2 under the claimed exact-match-first rule),
but the single-pass scan accepts "A" by subject id first and binds
selfIndex 1. -/
theorem identity_scan_order_refuted :
    resolveSelfIndexFromTokens ["A", "B"] (some "B") (some "u") exDecode none =
      some 1 ∧
    ["A", "B"].get? 1 = some "B" ∧
    findSelfIndexSpec ["A", "B"] (some "B") (some "u") exDecode = some 2 := by
  decide

/-- the scan over an enumerated suffix finds exactly the first
candidate matching either by token equality or by decoded subject
id, and reports `none` only when no candidate matches. -/
theorem findSelfIndexAux_enumFrom_spec (tok uid : Option String)
    (dec : String → Option String) :
    ∀ (l : List String) (n : Nat),
      (∀ k, findSelfIndexAux tok uid dec (l.enumFrom n) = some k →
        ∃ i, k = n + i ∧ ∃ cand, l.get? i = some cand ∧
          tokenMatchesSelf tok uid dec cand = true ∧
          ∀ j c, j < i → l.get? j = some c →
            tokenMatchesSelf tok uid dec c = false) ∧
      (findSelfIndexAux tok uid dec (l.enumFrom n) = none →
        ∀ c ∈ l, tokenMatchesSelf tok uid dec c = false) := by
  intro l
  induction l with
  | nil =>
      intro n
      constructor
      · intro k hk
        simp [List.enumFrom, findSelfIndexAux] at hk
      · intro _ c hc
        cases hc
  | cons hd tl ih =>
      intro n
      by_cases hm : tokenMatchesSelf tok uid dec hd = true
      · constructor
        · intro k hk
          simp only [List.enumFrom, findSelfIndexAux, hm, if_pos,
            Option.some.injEq] at hk
          refine ⟨0, by omega, hd, rfl, hm, ?_⟩
          intro j c hj _
          omega
        · intro hnone
          simp [List.enumFrom, findSelfIndexAux, hm] at hnone
      · constructor
        · intro k hk
          simp only [List.enumFrom, findSelfIndexAux, hm, if_neg,
            Bool.not_eq_true] at hk
          rcases ((ih (n + 1)).1 k hk) with ⟨i, hki, cand, hget, hcand, hearlier⟩
          refine ⟨i + 1, by omega, cand, by simpa using hget, hcand, ?_⟩
          intro j c hj hc
          match j, hc with
          | 0, hc =>
              have : hd = c := by simpa using hc
              rw [← this]
              simpa using hm
          | j' + 1, hc =>
              exact hearlier j' c (by omega) (by simpa using hc)
        · intro hnone
          simp only [List.enumFrom, findSelfIndexAux, hm, if_neg,
            Bool.not_eq_true] at hnone
          intro c hc
          rcases List.mem_cons.mp hc with rfl | hmem
          · simpa using hm
          · exact (ih (n + 1)).2 hnone c hmem

/-- C9, amended: the resolver performs one pass over the token list,
binding selfIndex to position + 1 of the first token that matches
either by exact equality with the local token or by its decoded
subject id equalling the local subject id (each candidate is tested
for both before the next candidate is considered — exact equality has
no precedence across positions); when no token matches either way,
`playerIndex` is left unchanged, and a session whose identity is
wholly unresolved keeps the turn flag down and cannot fire after any
update. -/
theorem identity_scan_first_either_match :
    (∀ (tokens : List String) (tok uid : Option String)
        (dec : String → Option String) (k : Nat),
        resolveSelfIndexFromTokens tokens tok uid dec none = some k →
        ∃ i, k = i + 1 ∧ ∃ cand, tokens.get? i = some cand ∧
          tokenMatchesSelf tok uid dec cand = true ∧
          ∀ j c, j < i → tokens.get? j = some c →
            tokenMatchesSelf tok uid dec c = false) ∧
    (∀ (tokens : List String) (tok uid : Option String)
        (dec : String → Option String) (pi : Option Nat),
        (∀ c ∈ tokens, tokenMatchesSelf tok uid dec c = false) →
        resolveSelfIndexFromTokens tokens tok uid dec pi = pi) ∧
    (∀ (s : GameState) (p : Payload),
        s.playerIndex = none → s.selfUserId = none →
        (applyGameStateUpdate s p).isCurrentTurnSelf = false ∧
        canFire (applyGameStateUpdate s p) = false) := by
  refine ⟨?_, ?_, ?_⟩
  · intro tokens tok uid dec k hk
    simp only [resolveSelfIndexFromTokens] at hk
    by_cases hemp : tokens.isEmpty = true
    · simp [hemp] at hk
    · simp only [hemp, Bool.false_eq_true, if_false] at hk
      by_cases hfal : (optFalsy tok && optFalsy uid) = true
      · simp [hfal] at hk
      · simp only [hfal, Bool.false_eq_true, if_false] at hk
        match haux : findSelfIndexAux tok uid dec tokens.enum with
        | none => rw [haux] at hk; cases hk
        | some idx =>
            rw [haux] at hk
            have hk2 : k = idx + 1 := by simpa using hk.symm
            rcases (findSelfIndexAux_enumFrom_spec tok uid dec tokens 0).1 idx
                (by simpa [List.enum] using haux) with
              ⟨i, hi, cand, hget, hcand, hearlier⟩
            exact ⟨i, by omega, cand, hget, hcand, hearlier⟩
  · intro tokens tok uid dec pi hall
    simp only [resolveSelfIndexFromTokens]
    by_cases hemp : tokens.isEmpty = true
    · simp [hemp]
    · simp only [hemp, Bool.false_eq_true, if_false]
      by_cases hfal : (optFalsy tok && optFalsy uid) = true
      · simp [hfal]
      · simp only [hfal, Bool.false_eq_true, if_false]
        match haux : findSelfIndexAux tok uid dec tokens.enum with
        | none => rfl
        | some idx =>
            rcases (findSelfIndexAux_enumFrom_spec tok uid dec tokens 0).1 idx
                (by simpa [List.enum] using haux) with
              ⟨i, _, cand, hget, hcand, _⟩
            have : cand ∈ tokens := List.get?_mem hget
            rw [hall cand this] at hcand
            cases hcand
  · intro s p hpi huid
    have hsel : selectSnapshots s p = (none, none) := by
      simp [selectSnapshots, hpi, huid]
    have hres : resolvedSelfIndexOf s p = none := by
      simp [resolvedSelfIndexOf, hpi, huid, hsel, getIndexForUuid,
        Option.orElse]
    have hturn : isSelfTurnNowOf s p = false := by
      simp only [isSelfTurnNowOf, hres]
      cases candidateTurnOf p <;> rfl
    refine ⟨?_, ?_⟩
    · simp [applyGameStateUpdate, hturn]
    · rw [canFire_eq_conj]
      simp [applyGameStateUpdate, hturn]

/-- C9 witness: the amended scan rule at the counterexample inputs
(the first either-way match is position 0), the no-match passthrough
on a list whose tokens match nothing, and the cannot-act default on a
fully unresolved session. -/
theorem identity_scan_first_either_match_witness :
    (∃ i, (1 : Nat) = i + 1 ∧ ∃ cand, ["A", "B"].get? i = some cand ∧
      tokenMatchesSelf (some "B") (some "u") exDecode cand = true ∧
      ∀ j c, j < i → ["A", "B"].get? j = some c →
        tokenMatchesSelf (some "B") (some "u") exDecode c = false) ∧
    resolveSelfIndexFromTokens ["C"] (some "B") (some "u") exDecode none =
      none ∧
    canFire (applyGameStateUpdate
      { exSessionState with playerIndex := none, selfUserId := none }
      exStatusPayload) = false :=
  ⟨identity_scan_first_either_match.1 ["A", "B"] (some "B") (some "u") exDecode
      1 (by decide),
   identity_scan_first_either_match.2.1 ["C"] (some "B") (some "u") exDecode
      none (by decide),
   (identity_scan_first_either_match.2.2
      { exSessionState with playerIndex := none, selfUserId := none }
      exStatusPayload rfl rfl).2⟩

/-- each backoff delay is capped at 1500ms by construction. -/
theorem backoffDelay_le (n : Nat) : backoffDelay n ≤ 1500 :=
  min_le_left _ _

/-- characterization of the retry loop over any suffix
`range' a n` of the attempt indices: the slept delays are exactly the
backoffs of the attempts that failed before the next one ran, a
reported success is the first succeeding attempt, and a reported
failure means every attempt in the window failed with `n - 1` sleeps
(none after the last attempt). -/
theorem runAttempts_range'_spec (ok : Nat → Bool) :
    ∀ (n a : Nat),
      ((runAttempts ok (List.range' a n)).1 =
        (List.range' a (runAttempts ok (List.range' a n)).1.length).map
          backoffDelay) ∧
      ((runAttempts ok (List.range' a n)).1.length ≤ n - 1) ∧
      (∀ i, (runAttempts ok (List.range' a n)).2 = some i →
        ok i = true ∧ a ≤ i ∧ i < a + n ∧
        (∀ j, a ≤ j → j < i → ok j = false) ∧
        (runAttempts ok (List.range' a n)).1.length = i - a) ∧
      ((runAttempts ok (List.range' a n)).2 = none →
        (∀ j, a ≤ j → j < a + n → ok j = false) ∧
        (runAttempts ok (List.range' a n)).1.length = n - 1) := by
  intro n
  induction n with
  | zero =>
      intro a
      refine ⟨rfl, by simp [runAttempts], ?_, ?_⟩
      · intro i hi
        simp [List.range', runAttempts] at hi
      · intro _
        exact ⟨fun j hj1 hj2 => by omega, rfl⟩
  | succ m ih =>
      intro a
      rw [List.range'_succ]
      by_cases hok : ok a = true
      · have hstep : runAttempts ok (a :: List.range' (a + 1) m) =
            ([], some a) := by
          rw [runAttempts, if_pos hok]
        rw [hstep]
        refine ⟨rfl, by simp, ?_, ?_⟩
        · intro i hi
          have : a = i := by simpa using hi
          subst this
          exact ⟨hok, le_refl a, by omega, fun j hj1 hj2 => by omega, by simp⟩
        · intro h
          cases h
      · match m, ih with
        | 0, _ =>
            have hstep : runAttempts ok (a :: List.range' (a + 1) 0) =
                ([], none) := by
              rw [runAttempts, if_neg (by simpa using hok)]
              rfl
            rw [hstep]
            refine ⟨rfl, by simp, ?_, ?_⟩
            · intro i hi
              cases hi
            · intro _
              refine ⟨fun j hj1 hj2 => ?_, rfl⟩
              have : j = a := by omega
              subst this
              simpa using hok
        | m' + 1, ih =>
            rcases ih (a + 1) with ⟨ih1, ih2, ih3, ih4⟩
            have hne : ¬(List.range' (a + 1) (m' + 1)).isEmpty = true := by
              simp [List.range'_succ]
            have hstep : runAttempts ok (a :: List.range' (a + 1) (m' + 1)) =
                (backoffDelay a ::
                   (runAttempts ok (List.range' (a + 1) (m' + 1))).1,
                 (runAttempts ok (List.range' (a + 1) (m' + 1))).2) := by
              rw [runAttempts, if_neg (by simpa using hok), if_neg hne]
            rw [hstep]
            refine ⟨?_, by simpa using ih2, ?_, ?_⟩
            · have hr : List.range' a
                  ((backoffDelay a ::
                    (runAttempts ok (List.range' (a + 1) (m' + 1))).1).length) =
                  a :: List.range' (a + 1)
                    ((runAttempts ok (List.range' (a + 1) (m' + 1))).1.length) :=
                List.range'_succ _ _ _
              rw [hr, List.map_cons, ← ih1]
            · intro i hi
              rcases ih3 i (by simpa using hi) with
                ⟨hoki, hai, hlt, hearlier, hlen⟩
              refine ⟨hoki, by omega, by omega, ?_, ?_⟩
              · intro j hj1 hj2
                rcases Nat.eq_or_lt_of_le hj1 with rfl | hj1
                · simpa using hok
                · exact hearlier j (by omega) hj2
              · simp only [List.length_cons, hlen]
                omega
            · intro hnone
              rcases ih4 (by simpa using hnone) with ⟨hall, hlen⟩
              refine ⟨?_, ?_⟩
              · intro j hj1 hj2
                rcases Nat.eq_or_lt_of_le hj1 with rfl | hj1
                · simpa using hok
                · exact hall j (by omega) (by omega)
              · simp only [List.length_cons, hlen]
                omega

/-- C8: the initial fetch performs at most 8 attempts, stops at the
first success (everything earlier failed), sleeps exactly the
backoff sequence `min(1500, round(200·1.5ⁿ))` indexed by the 0-based
retry number — so no inter-attempt delay exceeds 1500ms — and after
a failure of the final attempt no delay and no further attempt
follows (7 sleeps for 8 attempts). -/
theorem fetch_retry_bounded_backoff (ok : Nat → Bool) :
    (fetchStateWithRetry ok).1.length + 1 ≤ maxAttempts ∧
    (∀ d ∈ (fetchStateWithRetry ok).1, d ≤ 1500) ∧
    ((fetchStateWithRetry ok).1 =
      (List.range (fetchStateWithRetry ok).1.length).map backoffDelay) ∧
    (∀ i, (fetchStateWithRetry ok).2 = some i →
      ok i = true ∧ i < maxAttempts ∧ (∀ j, j < i → ok j = false) ∧
      (fetchStateWithRetry ok).1.length = i) ∧
    ((fetchStateWithRetry ok).2 = none →
      (∀ j, j < maxAttempts → ok j = false) ∧
      (fetchStateWithRetry ok).1.length = maxAttempts - 1) := by
  have hbase := runAttempts_range'_spec ok maxAttempts 0
  simp only [← List.range_eq_range'] at hbase
  rcases hbase with ⟨h1, h2, h3, h4⟩
  have hfd : fetchStateWithRetry ok = runAttempts ok (List.range maxAttempts) :=
    rfl
  rw [hfd]
  refine ⟨?_, ?_, h1, ?_, ?_⟩
  · have : (0 : Nat) < maxAttempts := by decide
    omega
  · intro d hd
    rw [h1] at hd
    rcases List.mem_map.mp hd with ⟨j, _, rfl⟩
    exact backoffDelay_le j
  · intro i hi
    rcases h3 i hi with ⟨hoki, _, hlt, hearlier, hlen⟩
    exact ⟨hoki, by omega, fun j hj => hearlier j (by omega) hj, by omega⟩
  · intro hnone
    rcases h4 hnone with ⟨hall, hlen⟩
    exact ⟨fun j hj => hall j (by omega) (by omega), hlen⟩

/-- the concrete backoff values the loop can sleep (the raw doubling
sequence 200, 300, 450, 675, 1012.5, 1518.75, 2278.125 rounded and
capped). -/
theorem backoffDelay_values :
    backoffDelay 0 = 200 ∧ backoffDelay 1 = 300 ∧ backoffDelay 2 = 450 ∧
    backoffDelay 3 = 675 ∧ backoffDelay 4 = 1013 ∧ backoffDelay 5 = 1500 ∧
    backoffDelay 6 = 1500 := by
  refine ⟨?_, ?_, ?_, ?_, ?_, ?_, ?_⟩ <;> norm_num [backoffDelay] <;> rfl

/-- C8 witness: the loop evaluated at an all-failing oracle (8
attempts, 7 delays, the delay list is the backoff map) and at an
oracle succeeding on attempt 2 (the success is reported with both
earlier attempts failed). -/
theorem fetch_retry_bounded_backoff_witness :
    ((∀ j, j < maxAttempts → (fun _ => false : Nat → Bool) j = false) ∧
      (fetchStateWithRetry (fun _ => false)).1.length = maxAttempts - 1) ∧
    (fetchStateWithRetry (fun _ => false)).1 =
      (List.range (maxAttempts - 1)).map backoffDelay ∧
    ((fun n : Nat => n == 2) 2 = true ∧
      (∀ j, j < 2 → (fun n : Nat => n == 2) j = false) ∧
      (fetchStateWithRetry (fun n : Nat => n == 2)).1.length = 2) := by
  have hfail := (fetch_retry_bounded_backoff (fun _ => false)).2.2.2.2
    (by decide)
  have hmap := (fetch_retry_bounded_backoff (fun _ => false)).2.2.1
  have hsucc := (fetch_retry_bounded_backoff (fun n : Nat => n == 2)).2.2.2.1
    2 (by decide)
  refine ⟨hfail, ?_, hsucc.1, fun j hj => hsucc.2.2.1 j hj, hsucc.2.2.2⟩
  rw [hmap, hfail.2]

/-- pointwise-equal step functions fold identically. -/
theorem foldl_congr_fun {α β : Type} (f g : α → β → α)
    (h : ∀ a b, f a b = g a b) :
    ∀ (l : List β) (a : α), l.foldl f a = l.foldl g a := by
  intro l
  induction l with
  | nil => intro a; rfl
  | cons hd tl ih =>
      intro a
      simp only [List.foldl_cons, h a hd]
      exact ih (g a hd)

/-- folding preserves any invariant preserved by each step taken on a
list element. -/
theorem foldl_preserve {α β : Type} (P : α → Prop) (f : α → β → α) :
    ∀ (l : List β) (a : α), (∀ a0 b, b ∈ l → P a0 → P (f a0 b)) → P a →
      P (l.foldl f a) := by
  intro l
  induction l with
  | nil => intro a _ ha; exact ha
  | cons hd tl ih =>
      intro a hstep ha
      exact ih (f a hd) (fun a0 b hb => hstep a0 b (List.mem_cons_of_mem hd hb))
        (hstep a hd (List.mem_cons_self hd tl) ha)

/-- `getD` through `set`: the written slot when it is the queried
in-range index, the original list otherwise. -/
theorem getD_set_lemma {α : Type} :
    ∀ (l : List α) (i j : Nat) (a d : α),
      (l.set i a).getD j d =
        if i = j ∧ i < l.length then a else l.getD j d := by
  intro l
  induction l with
  | nil => intro i j a d; simp
  | cons hd tl ih =>
      intro i j a d
      match i, j with
      | 0, 0 => simp
      | 0, j + 1 => simp
      | i + 1, 0 => simp
      | i + 1, j + 1 =>
          simp only [List.set_cons_succ, List.getD_cons_succ, ih tl.length,
            List.length_cons]
          rw [ih]
          by_cases hij : i = j ∧ i < tl.length
          · rw [if_pos hij, if_pos (by omega)]
          · rw [if_neg hij, if_neg (by omega)]

/-- an in-range `getD` is an element of the list. -/
theorem getD_mem_of_lt {α : Type} :
    ∀ (l : List α) (n : Nat) (d : α), n < l.length → l.getD n d ∈ l := by
  intro l
  induction l with
  | nil => intro n d h; simp at h
  | cons hd tl ih =>
      intro n d h
      match n with
      | 0 => simp
      | n + 1 =>
          simp only [List.getD_cons_succ]
          exact List.mem_cons_of_mem hd (ih n d (by simpa using h))

/-- `getD` on a replicated list. -/
theorem getD_replicate {α : Type} (x d : α) :
    ∀ (n r : Nat), (List.replicate n x).getD r d = if r < n then x else d := by
  intro n
  induction n with
  | zero => intro r; simp
  | succ m ih =>
      intro r
      match r with
      | 0 => simp [List.replicate]
      | r + 1 =>
          simp only [List.replicate, List.getD_cons_succ, ih r]
          by_cases h : r < m
          · rw [if_pos h, if_pos (by omega)]
          · rw [if_neg h, if_neg (by omega)]

/-- one entry of the built matrix (row-major, defaulting like an
absent JS index). -/
def boardEntry (b : List (List (Option String))) (r c : Nat) : Option String :=
  (b.getD r []).getD c none

/-- a cell write leaves every entry alone or sets it to the written
label. -/
theorem boardEntry_write (b : List (List (Option String))) (cell : GridCell)
    (lab : String) (r c : Nat) :
    boardEntry (writeBoardCell b cell lab) r c = some lab ∨
    boardEntry (writeBoardCell b cell lab) r c = boardEntry b r c := by
  unfold writeBoardCell boardEntry
  split
  · rw [getD_set_lemma]
    by_cases hr : cell.row.toNat = r ∧ cell.row.toNat < b.length
    · rw [if_pos hr, getD_set_lemma]
      by_cases hc : cell.col.toNat = c ∧
          cell.col.toNat < (b.getD cell.row.toNat []).length
      · left; rw [if_pos hc]
      · right; rw [if_neg hc, hr.1]
    · right; rw [if_neg hr]
  · right; rfl

/-- a cell write preserves the row count. -/
theorem writeBoardCell_length (b : List (List (Option String)))
    (cell : GridCell) (lab : String) :
    (writeBoardCell b cell lab).length = b.length := by
  unfold writeBoardCell
  split
  · simp
  · rfl

/-- a cell write preserves 10-long rows of a 10-row board. -/
theorem writeBoardCell_rows (b : List (List (Option String)))
    (cell : GridCell) (lab : String) (hlen : b.length = 10)
    (hrows : ∀ row ∈ b, row.length = 10) :
    ∀ row ∈ writeBoardCell b cell lab, row.length = 10 := by
  unfold writeBoardCell
  split
  · rename_i hbound
    intro row hrow
    rcases List.mem_or_eq_of_mem_set hrow with h | rfl
    · exact hrows _ h
    · have hb : (0 ≤ cell.row ∧ cell.row < 10) ∧ 0 ≤ cell.col ∧ cell.col < 10 := by
        simpa [cellInBounds, and_assoc] using hbound
      have hrn : cell.row.toNat < b.length := by omega
      have hmem : b.getD cell.row.toNat [] ∈ b := getD_mem_of_lt b _ [] hrn
      rw [List.length_set]
      exact hrows _ hmem
  · exact hrows

/-- an out-of-bounds cell write is the identity. -/
theorem writeBoardCell_oob (b : List (List (Option String)))
    (cell : GridCell) (lab : String) (h : cellInBounds cell = false) :
    writeBoardCell b cell lab = b := by
  unfold writeBoardCell
  rw [if_neg]
  simp [h]

/-- writing a shape's cells equals writing only its in-bounds cells. -/
theorem foldl_write_filter (lab : String) :
    ∀ (cells : List GridCell) (b : List (List (Option String))),
      cells.foldl (fun b0 cell => writeBoardCell b0 cell lab) b =
      (cells.filter cellInBounds).foldl
        (fun b0 cell => writeBoardCell b0 cell lab) b := by
  intro cells
  induction cells with
  | nil => intro b; rfl
  | cons hd tl ih =>
      intro b
      by_cases hin : cellInBounds hd = true
      · simp only [List.foldl_cons, List.filter_cons, hin, if_pos]
        exact ih (writeBoardCell b hd lab)
      · have hf : cellInBounds hd = false := by simpa using hin
        simp only [List.foldl_cons, List.filter_cons, hf, Bool.false_eq_true,
          if_false]
        rw [writeBoardCell_oob b hd lab hf]
        exact ih b

/-- C10: for every placed-shape list — including shapes with cells
outside the grid — the board matrix built for submission is exactly
10 rows of 10 entries, every entry is `null` or the label written for
one of the placed shapes, and cells outside 0..9 are silently
ignored: the matrix equals the one built from the same shapes with
their out-of-bounds cells removed (no error, no out-of-bounds
write). -/
theorem board_matrix_safety :
    (∀ placed : List PlacedShape, (buildBoardMatrix placed).length = 10) ∧
    (∀ placed : List PlacedShape, ∀ row ∈ buildBoardMatrix placed,
      row.length = 10) ∧
    (∀ (placed : List PlacedShape) (r c : Nat),
      boardEntry (buildBoardMatrix placed) r c = none ∨
      ∃ ps ∈ placed,
        boardEntry (buildBoardMatrix placed) r c = some (shapeLabel ps)) ∧
    (∀ placed : List PlacedShape,
      buildBoardMatrix placed =
        buildBoardMatrix (placed.map
          (fun ps => ⟨ps.id, ps.cells.filter cellInBounds⟩))) := by
  have hdims : ∀ placed : List PlacedShape,
      (buildBoardMatrix placed).length = 10 ∧
      ∀ row ∈ buildBoardMatrix placed, row.length = 10 := by
    intro placed
    refine foldl_preserve
      (fun b => b.length = 10 ∧ ∀ row ∈ b, row.length = 10) _ placed
      emptyBoard ?_ ⟨by simp [emptyBoard], by
        intro row hrow
        simp only [emptyBoard] at hrow
        rw [List.eq_of_mem_replicate hrow]
        simp⟩
    intro b ps _ hb
    refine foldl_preserve
      (fun b0 => b0.length = 10 ∧ ∀ row ∈ b0, row.length = 10) _ ps.cells
      b ?_ hb
    intro b0 cell _ hb0
    exact ⟨by rw [writeBoardCell_length, hb0.1],
      writeBoardCell_rows b0 cell _ hb0.1 hb0.2⟩
  refine ⟨fun placed => (hdims placed).1, fun placed => (hdims placed).2,
    ?_, ?_⟩
  · intro placed r c
    refine foldl_preserve
      (fun b => boardEntry b r c = none ∨
        ∃ ps ∈ placed, boardEntry b r c = some (shapeLabel ps)) _ placed
      emptyBoard ?_ (Or.inl ?_)
    · intro b ps hps hb
      refine foldl_preserve
        (fun b0 => boardEntry b0 r c = none ∨
          ∃ ps0 ∈ placed, boardEntry b0 r c = some (shapeLabel ps0)) _
        ps.cells b ?_ hb
      intro b0 cell _ hb0
      rcases boardEntry_write b0 cell (shapeLabel ps) r c with h | h
      · exact Or.inr ⟨ps, hps, h⟩
      · rw [h]; exact hb0
    · simp only [boardEntry, emptyBoard, getD_replicate]
      by_cases hr : r < 10
      · rw [if_pos hr, getD_replicate]
        by_cases hc : c < 10
        · rw [if_pos hc]
        · rw [if_neg hc]
      · rw [if_neg hr]; rfl
  · intro placed
    unfold buildBoardMatrix
    rw [List.foldl_map]
    exact foldl_congr_fun _ _
      (fun b ps => foldl_write_filter (shapeLabel ps) ps.cells b) placed
      emptyBoard

/-- a placed shape carrying the out-of-bounds cell (-3, 12) next to
two in-bounds cells. -/
def exOobShape : PlacedShape :=
  ⟨"s-2x1", [⟨0, 0⟩, ⟨0, 1⟩, ⟨-3, 12⟩]⟩

/-- C10 witness: the matrix safety facts at a shape with an
out-of-bounds cell — 10 rows, a lawful (0,0) entry, and equality with
the matrix built after dropping the out-of-bounds cell. -/
theorem board_matrix_safety_witness :
    (buildBoardMatrix [exOobShape]).length = 10 ∧
    (boardEntry (buildBoardMatrix [exOobShape]) 0 0 = none ∨
      ∃ ps ∈ [exOobShape],
        boardEntry (buildBoardMatrix [exOobShape]) 0 0 =
          some (shapeLabel ps)) ∧
    buildBoardMatrix [exOobShape] =
      buildBoardMatrix ([exOobShape].map
        (fun ps => ⟨ps.id, ps.cells.filter cellInBounds⟩)) :=
  ⟨board_matrix_safety.1 _, board_matrix_safety.2.2.1 _ 0 0,
   board_matrix_safety.2.2.2 _⟩

/-- no cell of `a` shares coordinates with a cell of `b`. -/
def placedDisjoint (a b : PlacedShape) : Prop :=
  ∀ x ∈ a.cells, ∀ y ∈ b.cells, ¬(x.row = y.row ∧ x.col = y.col)

/-- the placement invariant maintained by the drag gestures: the used
id set mirrors the committed shapes, ids are unique, every committed
shape is a translated catalog shape, every committed cell is in
bounds, and committed shapes are pairwise disjoint. -/
structure PlacementInv (st : PlacementState) : Prop where
  used_eq : st.usedShapeIds = st.placedShapesLeft.map (·.id)
  ids_nodup : (st.placedShapesLeft.map (·.id)).Nodup
  from_catalog : ∀ ps ∈ st.placedShapesLeft, ∃ shape ∈ shapesCatalog,
      ps.id = shape.id ∧ ∃ r c, ps.cells = translateCells shape r c
  in_bounds : ∀ ps ∈ st.placedShapesLeft, ∀ cell ∈ ps.cells,
      cellInBounds cell = true
  disjoint : st.placedShapesLeft.Pairwise placedDisjoint

/-- unpacking a passed `previewValid` check. -/
theorem previewValid_unpack {cells : List GridCell} {placed : List PlacedShape}
    (h : previewValid cells placed = true) :
    (∀ c ∈ cells, cellInBounds c = true) ∧
    (∀ c ∈ cells, ∀ ps ∈ placed, ∀ p ∈ ps.cells,
      ¬(p.row = c.row ∧ p.col = c.col)) := by
  simp only [previewValid, Bool.and_eq_true, Bool.not_eq_true',
    List.all_eq_true] at h
  refine ⟨h.1, ?_⟩
  intro c hc ps hps p hp hcontra
  have hov : cellsOverlap cells placed = true := by
    simp only [cellsOverlap, List.any_eq_true]
    exact ⟨c, hc, ps, hps, p, hp, by simp [hcontra.1, hcontra.2]⟩
  rw [h.2] at hov
  cases hov

/-- mapping a function that fixes a projection fixes the mapped
projection. -/
theorem map_comp_fix {α β : Type} (f : α → α) (g : α → β)
    (h : ∀ a, g (f a) = g a) : ∀ l : List α, (l.map f).map g = l.map g := by
  intro l
  induction l with
  | nil => rfl
  | cons hd tl ih => simp only [List.map_cons, h hd, ih]

/-- pairwise disjointness survives replacing the (unique) shape with
id `sid` by new cells that overlap nothing currently committed. -/
theorem pairwise_replace {sid : String} {cells : List GridCell} :
    ∀ {l : List PlacedShape},
      (l.map (·.id)).Nodup → l.Pairwise placedDisjoint →
      (∀ ps ∈ l, ∀ x ∈ ps.cells, ∀ y ∈ cells,
        ¬(x.row = y.row ∧ x.col = y.col)) →
      (l.map (fun ps =>
        if ps.id == sid then (⟨ps.id, cells⟩ : PlacedShape) else ps)).Pairwise
        placedDisjoint := by
  intro l
  induction l with
  | nil => intro _ _ _; simp
  | cons hd tl ih =>
      intro hnd hpw hov
      rw [List.map_cons] at hnd
      rw [List.map_cons, List.pairwise_cons]
      rw [List.pairwise_cons] at hpw
      rcases List.nodup_cons.mp hnd with ⟨hhdnotin, hndtl⟩
      refine ⟨?_, ih hndtl hpw.2
        (fun ps hps => hov ps (List.mem_cons_of_mem hd hps))⟩
      intro b' hb'
      rcases List.mem_map.mp hb' with ⟨b, hbtl, rfl⟩
      by_cases hhd : (hd.id == sid) = true
      · have hbne : ¬(b.id == sid) = true := by
          intro hb
          apply hhdnotin
          have h1 : hd.id = sid := by simpa using hhd
          have h2 : b.id = sid := by simpa using hb
          rw [h1, ← h2]
          exact List.mem_map_of_mem (·.id) hbtl
        rw [if_pos hhd, if_neg hbne]
        intro x hx y hy hcontra
        exact hov b (List.mem_cons_of_mem hd hbtl) y hy x hx
          ⟨hcontra.1.symm, hcontra.2.symm⟩
      · rw [if_neg hhd]
        by_cases hb : (b.id == sid) = true
        · rw [if_pos hb]
          intro x hx y hy
          exact hov hd (List.mem_cons_self hd tl) x hx y hy
        · rw [if_neg hb]
          exact hpw.1 b hbtl

/-- the empty board satisfies the invariant. -/
theorem placementInv_initial : PlacementInv initialPlacement :=
  ⟨rfl, List.nodup_nil, fun ps hps => absurd hps (List.not_mem_nil ps),
   fun ps hps => absurd hps (List.not_mem_nil ps), List.Pairwise.nil⟩

/-- every drag gesture preserves the placement invariant. -/
theorem placementStep_inv (st : PlacementState) (op : PlacementOp)
    (h : PlacementInv st) : PlacementInv (placementStep st op) := by
  cases op with
  | dropFromPalette sid r c =>
      simp only [placementStep]
      split
      · exact h
      · rename_i shape hfind
        have hmem : shape ∈ shapesCatalog := List.mem_of_find?_eq_some hfind
        have hsid : shape.id = sid := by
          have := List.find?_some hfind
          simpa using this
        by_cases hused : sid ∈ st.usedShapeIds
        · rw [if_pos hused]; exact h
        · rw [if_neg hused]
          by_cases hval :
              previewValid (translateCells shape r c) st.placedShapesLeft =
                true
          · rw [if_pos hval]
            rcases previewValid_unpack hval with ⟨hvb, hvo⟩
            have husedeq : setAdd st.usedShapeIds sid =
                st.usedShapeIds ++ [sid] := by
              simp [setAdd, hused]
            refine ⟨?_, ?_, ?_, ?_, ?_⟩
            · rw [husedeq, h.used_eq]
              simp
            · simp only [List.map_append, List.map_cons, List.map_nil]
              rw [List.nodup_append]
              refine ⟨h.ids_nodup, List.nodup_singleton sid, ?_⟩
              intro x hx hxs
              apply hused
              have : x = sid := by simpa using hxs
              rw [h.used_eq, ← this]
              exact hx
            · intro ps hps
              rcases List.mem_append.mp hps with hold | hnew
              · exact h.from_catalog ps hold
              · have : ps = ⟨sid, translateCells shape r c⟩ := by
                  simpa using hnew
                subst this
                exact ⟨shape, hmem, hsid.symm, r, c, rfl⟩
            · intro ps hps cell hcell
              rcases List.mem_append.mp hps with hold | hnew
              · exact h.in_bounds ps hold cell hcell
              · have : ps = ⟨sid, translateCells shape r c⟩ := by
                  simpa using hnew
                subst this
                exact hvb cell hcell
            · rw [List.pairwise_append]
              refine ⟨h.disjoint, List.pairwise_singleton _ _, ?_⟩
              intro a ha b hb
              have : b = ⟨sid, translateCells shape r c⟩ := by simpa using hb
              subst this
              intro x hx y hy hcontra
              exact hvo y hy a ha x hx hcontra
          · rw [if_neg hval]; exact h
  | moveOnGrid sid r c =>
      simp only [placementStep]
      split
      · rename_i ps0 shape hfound hfind
        have hmem : shape ∈ shapesCatalog := List.mem_of_find?_eq_some hfind
        have hsid : shape.id = sid := by
          have := List.find?_some hfind
          simpa using this
        by_cases hval :
            previewValid (translateCells shape r c) st.placedShapesLeft = true
        · rw [if_pos hval]
          rcases previewValid_unpack hval with ⟨hvb, hvo⟩
          have hfix : ∀ ps : PlacedShape,
              ((fun ps => if ps.id == sid then
                  (⟨ps.id, translateCells shape r c⟩ : PlacedShape)
                else ps) ps).id = ps.id := by
            intro ps
            dsimp only
            by_cases hid : (ps.id == sid) = true
            · rw [if_pos hid]
            · rw [if_neg hid]
          have hids : (st.placedShapesLeft.map (fun ps =>
              if ps.id == sid then
                (⟨ps.id, translateCells shape r c⟩ : PlacedShape)
              else ps)).map (·.id) = st.placedShapesLeft.map (·.id) :=
            map_comp_fix _ _ hfix st.placedShapesLeft
          refine ⟨?_, ?_, ?_, ?_, ?_⟩
          · rw [hids, h.used_eq]
          · rw [hids]; exact h.ids_nodup
          · intro ps hps
            rcases List.mem_map.mp hps with ⟨psrc, hsrc, rfl⟩
            by_cases hid : (psrc.id == sid) = true
            · rw [if_pos hid]
              refine ⟨shape, hmem, ?_, r, c, rfl⟩
              have : psrc.id = sid := by simpa using hid
              rw [this, hsid]
            · rw [if_neg hid]
              exact h.from_catalog psrc hsrc
          · intro ps hps cell hcell
            rcases List.mem_map.mp hps with ⟨psrc, hsrc, rfl⟩
            by_cases hid : (psrc.id == sid) = true
            · rw [if_pos hid] at hcell
              exact hvb cell hcell
            · rw [if_neg hid] at hcell
              exact h.in_bounds psrc hsrc cell hcell
          · exact pairwise_replace h.ids_nodup h.disjoint
              (fun ps hps x hx y hy hcontra => hvo y hy ps hps x hx hcontra)
        · rw [if_neg hval]; exact h
      · exact h
  | removeToPalette sid =>
      simp only [placementStep]
      have hfm : ∀ l : List PlacedShape,
          (l.filter (fun ps => ps.id ≠ sid)).map (·.id) =
          (l.map (·.id)).filter (fun y => y ≠ sid) := by
        intro l
        induction l with
        | nil => rfl
        | cons hd tl ih =>
            simp only [List.filter_cons, List.map_cons]
            by_cases hid : hd.id = sid
            · rw [if_neg (by simp [hid]), if_neg (by simp [hid])]
              exact ih
            · rw [if_pos (by simp [hid]), if_pos (by simp [hid])]
              simp only [List.map_cons, ih]
      refine ⟨?_, ?_, ?_, ?_, ?_⟩
      · simp only [setDelete]
        rw [h.used_eq, hfm]
      · rw [hfm]
        exact h.ids_nodup.filter _
      · intro ps hps
        exact h.from_catalog ps (List.mem_of_mem_filter hps)
      · intro ps hps
        exact h.in_bounds ps (List.mem_of_mem_filter hps)
      · exact h.disjoint.sublist (List.filter_sublist _)

/-- the invariant holds after any drag session from the empty
board. -/
theorem runPlacement_inv (ops : List PlacementOp) :
    PlacementInv (runPlacement ops) :=
  foldl_preserve PlacementInv placementStep ops initialPlacement
    (fun st op _ h => placementStep_inv st op h) placementInv_initial

/-- C7: whenever the submission gate opens — the confirm button
requires `usedShapeIds.size = 5` and `handleConfirmBoard` additionally
rejects an empty board — the committed board (reachable only through
the validated drag gestures) holds exactly one translated instance of
each of the five catalog shapes, every cell in bounds and no two
instances overlapping; with only four shapes placed the used-id count
is not 5, so submission is rejected. -/
theorem board_submission_validated :
    (∀ ops : List PlacementOp,
      (runPlacement ops).usedShapeIds.length = shapesCatalog.length →
      ((runPlacement ops).placedShapesLeft.map (·.id)).Nodup ∧
      (∀ sh ∈ shapesCatalog, ∃ ps ∈ (runPlacement ops).placedShapesLeft,
        ps.id = sh.id ∧ ∃ r c, ps.cells = translateCells sh r c) ∧
      (∀ ps ∈ (runPlacement ops).placedShapesLeft, ∀ cell ∈ ps.cells,
        cellInBounds cell = true) ∧
      (runPlacement ops).placedShapesLeft.Pairwise placedDisjoint ∧
      (runPlacement ops).placedShapesLeft ≠ []) ∧
    (∀ ops : List PlacementOp,
      (runPlacement ops).placedShapesLeft.length = 4 →
      (runPlacement ops).usedShapeIds.length ≠ shapesCatalog.length) := by
  have hinj : ∀ s1 ∈ shapesCatalog, ∀ s2 ∈ shapesCatalog,
      s1.id = s2.id → s1 = s2 := by decide
  have hcatnd : (shapesCatalog.map (·.id)).Nodup := by decide
  constructor
  · intro ops hlen
    have inv := runPlacement_inv ops
    have hlen' : ((runPlacement ops).placedShapesLeft.map (·.id)).length =
        shapesCatalog.length := by
      rw [← inv.used_eq]
      exact hlen
    have hsub : ∀ x ∈ (runPlacement ops).placedShapesLeft.map (·.id),
        x ∈ shapesCatalog.map (·.id) := by
      intro x hx
      rcases List.mem_map.mp hx with ⟨ps, hps, rfl⟩
      rcases inv.from_catalog ps hps with ⟨shape, hshape, hid, _⟩
      rw [hid]
      exact List.mem_map_of_mem _ hshape
    have hall : ∀ y ∈ shapesCatalog.map (·.id),
        y ∈ (runPlacement ops).placedShapesLeft.map (·.id) := by
      have h1 : ((runPlacement ops).placedShapesLeft.map (·.id)).toFinset ⊆
          (shapesCatalog.map (·.id)).toFinset := by
        intro x hx
        rw [List.mem_toFinset] at hx ⊢
        exact hsub x hx
      have hc1 := List.toFinset_card_of_nodup inv.ids_nodup
      have hc2 := List.toFinset_card_of_nodup hcatnd
      have heq : ((runPlacement ops).placedShapesLeft.map (·.id)).toFinset =
          (shapesCatalog.map (·.id)).toFinset := by
        apply Finset.eq_of_subset_of_card_le h1
        rw [hc1, hc2, hlen']
        simp
      intro y hy
      have hyf : y ∈ (shapesCatalog.map (·.id)).toFinset :=
        List.mem_toFinset.mpr hy
      rw [← heq] at hyf
      exact List.mem_toFinset.mp hyf
    refine ⟨inv.ids_nodup, ?_, inv.in_bounds, inv.disjoint, ?_⟩
    · intro sh hsh
      have hmem : sh.id ∈ (runPlacement ops).placedShapesLeft.map (·.id) :=
        hall _ (List.mem_map_of_mem _ hsh)
      rcases List.mem_map.mp hmem with ⟨ps, hps, hpsid⟩
      rcases inv.from_catalog ps hps with ⟨shape, hshape, hid, r, c, hcells⟩
      have hsheq : shape = sh := by
        apply hinj shape hshape sh hsh
        rw [← hid]
        exact hpsid
      exact ⟨ps, hps, hpsid, r, c, by rw [hcells, hsheq]⟩
    · intro hnil
      rw [hnil] at hlen'
      simp [shapesCatalog] at hlen'
  · intro ops hlen4
    have inv := runPlacement_inv ops
    rw [inv.used_eq, List.length_map, hlen4]
    decide

/-- a drag session committing all five catalog shapes (rows 0, 2,
4–5, 7 and the U at columns 5–6). -/
def exPlacementOps : List PlacementOp :=
  [.dropFromPalette "s-3x1" 0 0, .dropFromPalette "s-2x1" 2 0,
   .dropFromPalette "s-2x2" 4 0, .dropFromPalette "s-4x1" 7 0,
   .dropFromPalette "s-u" 0 5]

/-- the same session without the last shape: four of five. -/
def exPlacementOpsFour : List PlacementOp :=
  [.dropFromPalette "s-3x1" 0 0, .dropFromPalette "s-2x1" 2 0,
   .dropFromPalette "s-2x2" 4 0, .dropFromPalette "s-4x1" 7 0]

/-- C7 witness: the five-shape session opens the gate and satisfies
the accepted-board shape; the four-shape session is rejected. -/
theorem board_submission_validated_witness :
    ((runPlacement exPlacementOps).placedShapesLeft.map (·.id)).Nodup ∧
    (runPlacement exPlacementOps).placedShapesLeft ≠ [] ∧
    (runPlacement exPlacementOpsFour).usedShapeIds.length ≠
      shapesCatalog.length :=
  ⟨(board_submission_validated.1 exPlacementOps (by decide)).1,
   (board_submission_validated.1 exPlacementOps (by decide)).2.2.2.2,
   board_submission_validated.2 exPlacementOpsFour (by decide)⟩

end BattleShip
